import Mathlib

/-!
Verification of the Jaro-Winkler distance implementation
(`pyjarowinkler/distance.py`).

Strings are embedded as `List Char`, floating-point scores as `ℚ`
(the arithmetic of the source involves only small exact divisions and
one final rounding step, which we embed as Python's round-half-to-even
on rationals).  Python's dynamically typed arguments are embedded as
the inductive `PyVal`; the two failure modes of the source
(`JaroDistanceException` from the explicit guard, and the
`AttributeError` a non-string argument would produce at `.lower()`)
are embedded as an `Except PyError` result.
-/

/-- Dynamically typed Python value, restricted to the shapes the
library's entry points can meet: a string, `None`, a list, a tuple. -/
inductive PyVal where
  | str : List Char → PyVal
  | none : PyVal
  | list : List PyVal → PyVal
  | tuple : List PyVal → PyVal

/-- Failure modes of the embedded entry points. -/
inductive PyError where
  | jaroDistanceException : PyError
  | attributeError : PyError
deriving DecidableEq

/-- Python truthiness of a `PyVal` (`not x` in the source's guard):
empty strings, `None`, and empty collections are falsy. -/
def pyTruthy : PyVal → Bool
  | PyVal.str s => !s.isEmpty
  | PyVal.none => false
  | PyVal.list xs => !xs.isEmpty
  | PyVal.tuple xs => !xs.isEmpty

/-- Embedding of `str.lower()` (per-code-point lowercasing). -/
def pyLower (s : List Char) : List Char := s.map Char.toLower

/-- Embedding of Python's built-in `round` on a rational:
round half to even, returning an integer. -/
def pyRound (q : ℚ) : ℤ :=
  if q - ⌊q⌋ < 1 / 2 then ⌊q⌋
  else if 1 / 2 < q - ⌊q⌋ then ⌊q⌋ + 1
  else if 2 ∣ ⌊q⌋ then ⌊q⌋ else ⌊q⌋ + 1

/-- Embedding of `str.index` (Python raises when absent; the source only
calls it on characters known to be present, so the default-`0` totalization
is never hit on the source's call sites). -/
def pyIndex (c : Char) : List Char → ℕ
  | [] => 0
  | x :: xs => if x = c then 0 else pyIndex c xs + 1

/-- Loop body of `_get_matching_characters` (source lines 106–111):
walk `first` with running index `i`, searching the window
`second[max(0, i - limit) : min(i + limit + 1, len(second))]` of the
working copy of `second`, and on a hit record the character and
overwrite the first occurrence in the whole working copy with `'*'`. -/
def gmcAux (limit : ℕ) : List Char → ℕ → List Char → List Char
  | [], _, _ => []
  | l :: rest, i, second =>
    if l ∈ (second.drop (i - limit)).take (min (i + limit + 1) second.length - (i - limit)) then
      l :: gmcAux limit rest (i + 1) (second.set (pyIndex l second) '*')
    else
      gmcAux limit rest (i + 1) second

/-- Embedding of `_get_matching_characters(first, second)`:
`limit = floor(min(len(first), len(second)) / 2)`. -/
def getMatchingCharacters (first second : List Char) : List Char :=
  gmcAux (min first.length second.length / 2) first 0 second

/-- Embedding of `_transpositions(first, second)`: count position-wise
mismatches of the zipped matched sequences, floor-divided by two. -/
def transpositions (first second : List Char) : ℕ :=
  ((first.zip second).filter (fun p => p.1 != p.2)).length / 2

/-- Body of `_score` once `shorter` and `longer` are designated
(source lines 61–69): `m1` and `m2` are the two directional match
sequences; if either is empty the score is `0.0`, otherwise the average
of the three Jaro terms. -/
def scoreOf (shorter longer : List Char) : ℚ :=
  if (getMatchingCharacters shorter longer).length = 0 ∨
      (getMatchingCharacters longer shorter).length = 0 then 0
  else
    (((getMatchingCharacters shorter longer).length : ℚ) / (shorter.length : ℚ) +
      ((getMatchingCharacters longer shorter).length : ℚ) / (longer.length : ℚ) +
      (((getMatchingCharacters shorter longer).length : ℚ) -
        (transpositions (getMatchingCharacters shorter longer)
          (getMatchingCharacters longer shorter) : ℚ)) /
        ((getMatchingCharacters shorter longer).length : ℚ)) / 3

/-- Embedding of `_score(first, second)` (source lines 55–69): lowercase
both inputs, pick shorter/longer by the original lengths (ties keep the
argument order), then evaluate the Jaro body. -/
def score (first second : List Char) : ℚ :=
  if first.length > second.length then scoreOf (pyLower second) (pyLower first)
  else scoreOf (pyLower first) (pyLower second)

/-- Spec-side raw Jaro scorer on already-normalized inputs
(spec §4.1 steps 2–5, after the step-1 lowercase normalization):
used only to compare against the source's `_score`. -/
def scoreCore (x y : List Char) : ℚ :=
  if x.length > y.length then scoreOf y x else scoreOf x y

/-- Embedding of `_get_diff_index(first, second)`: `-1` for equal
strings, else `0` for an empty argument, else the first index where the
strings differ (or the shorter length when one is a prefix of the other);
the scan is the structural version of the source's indexed loop. -/
def diffLoop : List Char → List Char → ℕ
  | x :: xs, y :: ys => if x = y then diffLoop xs ys + 1 else 0
  | _, _ => 0

/-- Embedding of `_get_diff_index` (source lines 72–84). -/
def getDiffIndex (first second : List Char) : ℤ :=
  if first = second then -1
  else if first = [] ∨ second = [] then 0
  else (diffLoop first second : ℤ)

/-- Embedding of `_get_prefix` (source lines 87–99). -/
def get_prefix (first second : List Char) : List Char :=
  if first = [] ∨ second = [] then []
  else if getDiffIndex first second = -1 then first
  else if getDiffIndex first second = 0 then []
  else first.take (getDiffIndex first second).toNat

/-- Spec-side common-prefix length, following the spec's words: walk the
two strings in parallel, case-sensitively, stopping at the first
differing character or at the shorter string's length (for `a == b` this
yields the whole of `a`).  Used only to compare against the source's
`_get_prefix`. -/
def specPrefixLen : List Char → List Char → ℕ
  | x :: xs, y :: ys => if x = y then specPrefixLen xs ys + 1 else 0
  | _, _ => 0

/-- Body of `get_jaro_distance` after its validity guard (source lines
32–38): raw Jaro score, prefix length capped at 4, and the conditional
Winkler adjustment with rounding to two decimals. -/
def jaroBody (first second : List Char) (winkler winkler_ajustment : Bool) (scaling : ℚ) : ℚ :=
  if winkler && winkler_ajustment then
    (pyRound ((score first second +
      scaling * ((min ( get_prefix first second).length 4 : ℕ) : ℚ) *
      (1 - score first second)) * 100) : ℚ) / 100
  else score first second

/-- Embedding of `get_jaro_distance(first, second, winkler,
winkler_ajustment, scaling)` (source lines 18–38): falsy arguments raise
`JaroDistanceException`; truthy non-string arguments would then fail at
`.lower()` with an `AttributeError`; two non-empty strings succeed. -/
def get_jaro_distance (first second : PyVal) (winkler winkler_ajustment : Bool)
    (scaling : ℚ) : Except PyError ℚ :=
  if !pyTruthy first || !pyTruthy second then
    Except.error PyError.jaroDistanceException
  else
    match first, second with
    | PyVal.str f, PyVal.str s =>
      Except.ok (jaroBody f s winkler winkler_ajustment scaling)
    | _, _ => Except.error PyError.attributeError

/-- Fail-fast effectful map: the embedding of the list comprehension
`[get_jaro_distance(first, i, ...) for i in second]`, which stops at the
first element that raises. -/
def mapExcept (f : PyVal → Except PyError ℚ) : List PyVal → Except PyError (List ℚ)
  | [] => Except.ok []
  | c :: cs =>
    match f c with
    | Except.error e => Except.error e
    | Except.ok q =>
      match mapExcept f cs with
      | Except.error e => Except.error e
      | Except.ok qs => Except.ok (q :: qs)

/-- Exact `isinstance(second, list)` check of source line 50. -/
def isList : PyVal → Bool
  | PyVal.list _ => true
  | _ => false

/-- Embedding of `get_jaro_distance_array` (source lines 41–52): a
non-`list` second argument is wrapped as a one-element list, then the
pair function is mapped over the candidates. -/
def get_jaro_distance_array (first second : PyVal) (winkler winkler_ajustment : Bool)
    (scaling : ℚ) : Except PyError (List ℚ) :=
  mapExcept (fun i => get_jaro_distance first i winkler winkler_ajustment scaling)
    (match second with
     | PyVal.list xs => xs
     | v => [v])

/-! ### Basic lemmas about the helpers -/

lemma pyIndex_le_of_getElem? {w : List Char} {i : ℕ} {c : Char}
    (h : w[i]? = some c) : pyIndex c w ≤ i := by
  induction w generalizing i with
  | nil => simp at h
  | cons x xs ih =>
    cases i with
    | zero =>
      simp only [List.getElem?_cons_zero, Option.some.injEq] at h
      simp [pyIndex, h]
    | succ n =>
      simp only [List.getElem?_cons_succ] at h
      by_cases hx : x = c
      · simp [pyIndex, hx]
      · have := ih h
        simp only [pyIndex, if_neg hx]
        omega

lemma pyIndex_lt_length {w : List Char} {c : Char} (h : c ∈ w) :
    pyIndex c w < w.length := by
  induction w with
  | nil => simp at h
  | cons x xs ih =>
    by_cases hx : x = c
    · simp [pyIndex, hx]
    · have hmem : c ∈ xs := by
        rcases List.mem_cons.mp h with h' | h'
        · exact absurd h'.symm hx
        · exact h'
      have := ih hmem
      simp only [pyIndex, if_neg hx, List.length_cons]
      omega

lemma gmcAux_length_le (L : ℕ) (f : List Char) :
    ∀ (i : ℕ) (w : List Char), (gmcAux L f i w).length ≤ f.length := by
  induction f with
  | nil => intro i w; simp [gmcAux]
  | cons l rest ih =>
    intro i w
    simp only [gmcAux]
    split
    · simpa using Nat.succ_le_succ (ih (i + 1) (w.set (pyIndex l w) '*'))
    · exact Nat.le_trans (ih (i + 1) w) (Nat.le_succ _)

lemma getMatchingCharacters_length_le (x y : List Char) :
    (getMatchingCharacters x y).length ≤ x.length :=
  gmcAux_length_le _ x 0 y

lemma transpositions_le (m1 m2 : List Char) : transpositions m1 m2 ≤ m1.length := by
  unfold transpositions
  have h1 : ((m1.zip m2).filter (fun p => p.1 != p.2)).length ≤ (m1.zip m2).length :=
    List.length_filter_le _ _
  have h2 : (m1.zip m2).length ≤ m1.length := by
    rw [List.length_zip]; exact Nat.min_le_left _ _
  exact Nat.le_trans (Nat.div_le_self _ _) (Nat.le_trans h1 h2)

lemma floor_le_pyRound (q : ℚ) : ⌊q⌋ ≤ pyRound q := by
  unfold pyRound
  repeat' split
  all_goals omega

lemma pyRound_le_ceil (q : ℚ) : pyRound q ≤ ⌈q⌉ := by
  have hfc : ⌊q⌋ ≤ ⌈q⌉ := Int.floor_le_ceil q
  unfold pyRound
  split
  · exact hfc
  · have hlt : (⌊q⌋ : ℚ) < q := by
      rename_i h1
      push_neg at h1
      linarith
    have hceil : ⌊q⌋ < ⌈q⌉ := by
      have h2 : (⌊q⌋ : ℚ) < (⌈q⌉ : ℚ) := lt_of_lt_of_le hlt (Int.le_ceil q)
      exact_mod_cast h2
    repeat' split
    all_goals omega

/-! ### Range of the score (C1) -/

lemma scoreOf_bounds (x y : List Char) : 0 ≤ scoreOf x y ∧ scoreOf x y ≤ 1 := by
  unfold scoreOf
  split
  · norm_num
  · rename_i h
    push_neg at h
    obtain ⟨h1, h2⟩ := h
    have hn1 : 1 ≤ (getMatchingCharacters x y).length := Nat.one_le_iff_ne_zero.mpr h1
    have hn2 : 1 ≤ (getMatchingCharacters y x).length := Nat.one_le_iff_ne_zero.mpr h2
    have hx1 : 1 ≤ x.length := Nat.le_trans hn1 (getMatchingCharacters_length_le x y)
    have hy1 : 1 ≤ y.length := Nat.le_trans hn2 (getMatchingCharacters_length_le y x)
    have hxq : (0 : ℚ) < (x.length : ℚ) := by exact_mod_cast hx1
    have hyq : (0 : ℚ) < (y.length : ℚ) := by exact_mod_cast hy1
    have hn1q : (0 : ℚ) < ((getMatchingCharacters x y).length : ℚ) := by exact_mod_cast hn1
    have ht : (transpositions (getMatchingCharacters x y) (getMatchingCharacters y x) : ℚ) ≤
        ((getMatchingCharacters x y).length : ℚ) := by
      exact_mod_cast transpositions_le _ _
    have ht0 : (0 : ℚ) ≤
        (transpositions (getMatchingCharacters x y) (getMatchingCharacters y x) : ℚ) := by
      positivity
    have hm1 : ((getMatchingCharacters x y).length : ℚ) ≤ (x.length : ℚ) := by
      exact_mod_cast getMatchingCharacters_length_le x y
    have hm2 : ((getMatchingCharacters y x).length : ℚ) ≤ (y.length : ℚ) := by
      exact_mod_cast getMatchingCharacters_length_le y x
    have hT1a : (0 : ℚ) ≤ ((getMatchingCharacters x y).length : ℚ) / (x.length : ℚ) := by
      positivity
    have hT1b : ((getMatchingCharacters x y).length : ℚ) / (x.length : ℚ) ≤ 1 :=
      (div_le_one hxq).mpr hm1
    have hT2a : (0 : ℚ) ≤ ((getMatchingCharacters y x).length : ℚ) / (y.length : ℚ) := by
      positivity
    have hT2b : ((getMatchingCharacters y x).length : ℚ) / (y.length : ℚ) ≤ 1 :=
      (div_le_one hyq).mpr hm2
    have hT3a : (0 : ℚ) ≤
        (((getMatchingCharacters x y).length : ℚ) -
          (transpositions (getMatchingCharacters x y) (getMatchingCharacters y x) : ℚ)) /
          ((getMatchingCharacters x y).length : ℚ) := by
      apply div_nonneg _ (le_of_lt hn1q)
      linarith
    have hT3b : (((getMatchingCharacters x y).length : ℚ) -
          (transpositions (getMatchingCharacters x y) (getMatchingCharacters y x) : ℚ)) /
          ((getMatchingCharacters x y).length : ℚ) ≤ 1 := by
      apply (div_le_one hn1q).mpr
      linarith
    constructor
    · linarith
    · linarith

lemma score_bounds (a b : List Char) : 0 ≤ score a b ∧ score a b ≤ 1 := by
  unfold score
  split
  · exact scoreOf_bounds _ _
  · exact scoreOf_bounds _ _

lemma jaroBody_bounds (a b : List Char) (sc : ℚ) (h0 : 0 ≤ sc) (h1 : sc ≤ 1 / 4)
    (winkler winkler_ajustment : Bool) :
    0 ≤ jaroBody a b winkler winkler_ajustment sc ∧
      jaroBody a b winkler winkler_ajustment sc ≤ 1 := by
  obtain ⟨hj0, hj1⟩ := score_bounds a b
  unfold jaroBody
  split
  · set jaro := score a b with hjaro
    set cl : ℚ := ((min ( get_prefix a b).length 4 : ℕ) : ℚ) with hcl
    have hcl0 : (0 : ℚ) ≤ cl := by positivity
    have hcl4 : cl ≤ 4 := by
      rw [hcl]
      exact_mod_cast Nat.min_le_right _ _
    have hsccl : sc * cl ≤ 1 := by nlinarith
    have hA0 : 0 ≤ jaro + sc * cl * (1 - jaro) := by nlinarith
    have hA1 : jaro + sc * cl * (1 - jaro) ≤ 1 := by nlinarith
    have hr0 : (0 : ℤ) ≤ pyRound ((jaro + sc * cl * (1 - jaro)) * 100) := by
      refine le_trans ?_ (floor_le_pyRound _)
      exact Int.floor_nonneg.mpr (by nlinarith)
    have hr1 : pyRound ((jaro + sc * cl * (1 - jaro)) * 100) ≤ 100 := by
      refine le_trans (pyRound_le_ceil _) ?_
      exact Int.ceil_le.mpr (by push_cast; nlinarith)
    constructor
    · have : (0 : ℚ) ≤ (pyRound ((jaro + sc * cl * (1 - jaro)) * 100) : ℚ) := by
        exact_mod_cast hr0
      positivity
    · have h100 : (pyRound ((jaro + sc * cl * (1 - jaro)) * 100) : ℚ) ≤ 100 := by
        exact_mod_cast hr1
      linarith
  · exact ⟨hj0, hj1⟩

/-- C1: for non-empty strings `a`, `b` and any `scalingFactor` in
`[0, 0.25]`, `get_jaro_distance` succeeds and its value lies in
`[0.0, 1.0]`, with or without the Winkler adjustment. -/
theorem get_jaro_distance_range (a b : List Char) (ha : a ≠ []) (hb : b ≠ [])
    (sc : ℚ) (h0 : 0 ≤ sc) (h1 : sc ≤ 1 / 4) (winkler winkler_ajustment : Bool) :
    ∃ q, get_jaro_distance (PyVal.str a) (PyVal.str b) winkler winkler_ajustment sc =
      Except.ok q ∧ 0 ≤ q ∧ q ≤ 1 := by
  obtain ⟨hq0, hq1⟩ := jaroBody_bounds a b sc h0 h1 winkler winkler_ajustment
  refine ⟨jaroBody a b winkler winkler_ajustment sc, ?_, hq0, hq1⟩
  have ha' : a.isEmpty = false := by simpa [List.isEmpty_iff] using ha
  have hb' : b.isEmpty = false := by simpa [List.isEmpty_iff] using hb
  simp [get_jaro_distance, pyTruthy, ha', hb']

/-- Witness for C1 at a concrete input. -/
theorem get_jaro_distance_range_witness :
    ∃ q, get_jaro_distance (PyVal.str ['a', 'b']) (PyVal.str ['a']) true true (1 / 10) =
      Except.ok q ∧ 0 ≤ q ∧ q ≤ 1 :=
  get_jaro_distance_range ['a', 'b'] ['a'] (by decide) (by decide) (1 / 10)
    (by norm_num) (by norm_num) true true

/-- C2: `get_jaro_distance("MARTHA", "MARHTA")` with the default options
returns exactly `0.96`. -/
theorem get_jaro_distance_martha_marhta :
    get_jaro_distance (PyVal.str ['M', 'A', 'R', 'T', 'H', 'A'])
      (PyVal.str ['M', 'A', 'R', 'H', 'T', 'A']) true true (1 / 10) =
      Except.ok (96 / 100) := by
  with_unfolding_all rfl

/-- C3 counterexample: the raw Jaro score of the source is not
symmetric; the equal-length pair `("babaa", "aaabb")` (no `'*'`
involved) produces `17/20` in one order and `13/15` in the other. -/
theorem score_not_symmetric :
    score ['b', 'a', 'b', 'a', 'a'] ['a', 'a', 'a', 'b', 'b'] ≠
      score ['a', 'a', 'a', 'b', 'b'] ['b', 'a', 'b', 'a', 'a'] := by
  have h1 : score ['b', 'a', 'b', 'a', 'a'] ['a', 'a', 'a', 'b', 'b'] = 17 / 20 := by
    with_unfolding_all rfl
  have h2 : score ['a', 'a', 'a', 'b', 'b'] ['b', 'a', 'b', 'a', 'a'] = 13 / 15 := by
    with_unfolding_all rfl
  rw [h1, h2]
  norm_num

/-- C3 amended: the raw Jaro score is symmetric whenever the two strings
have different lengths (the shorter/longer designation then makes both
calls evaluate the identical expression); for equal-length strings
symmetry can fail. -/
theorem score_symm_of_length_ne (a b : List Char) (h : a.length ≠ b.length) :
    score a b = score b a := by
  unfold score
  rcases Nat.lt_or_ge a.length b.length with hlt | hge
  · rw [if_neg (by omega), if_pos (by omega)]
  · have hgt : b.length < a.length := by omega
    rw [if_pos (by omega), if_neg (by omega)]

/-- Witness for the amended C3 at a concrete input. -/
theorem score_symm_of_length_ne_witness :
    score ['a'] ['a', 'b'] = score ['a', 'b'] ['a'] :=
  score_symm_of_length_ne ['a'] ['a', 'b'] (by decide)

/-- C4: the sentinel `'*'` written into the working copy can equal a
real character; on `first = "a*"`, `second = "ab"` the second character
of `first` is recorded as a match although `'*'` does not occur in
`second` at all — it matches the sentinel left at the already-consumed
position 0. -/
theorem sentinel_matches_real_character :
    getMatchingCharacters ['a', '*'] ['a', 'b'] = ['a', '*'] ∧
      '*' ∉ (['a', 'b'] : List Char) := by
  constructor
  · decide
  · decide

/-! ### Identity (C5)

The key fact is that matching a string against itself records every
character, whatever the string contains.  The invariant carried through
the walk: positions of the working copy hold either their original
character or the sentinel, and every position `≥ i` whose original
character is not `'*'` is still untouched. -/

lemma gmcAux_self_invariant (s : List Char) (L : ℕ) :
    ∀ (rest : List Char) (i : ℕ) (w : List Char),
      rest = s.drop i →
      w.length = s.length →
      (∀ j : ℕ, w[j]? = s[j]? ∨ w[j]? = some '*') →
      (∀ j : ℕ, i ≤ j → s[j]? ≠ some '*' → w[j]? = s[j]?) →
      gmcAux L rest i w = rest := by
  intro rest
  induction rest with
  | nil => intro i w _ _ _ _; simp [gmcAux]
  | cons l rest' ih =>
    intro i w hdrop hlen hA hB
    have hsi : s[i]? = some l := by
      have h0 : (s.drop i)[0]? = some l := by rw [← hdrop]; simp
      simpa [List.getElem?_drop] using h0
    have hiS : i < s.length := (List.getElem?_eq_some_iff.mp hsi).1
    have hiW : i < w.length := by rw [hlen]; exact hiS
    have hwi : w[i]? = some l := by
      by_cases hstar : l = '*'
      · rcases hA i with h | h
        · rw [h, hsi]
        · rw [h, hstar]
      · have hne : s[i]? ≠ some '*' := by
          rw [hsi]
          exact fun hcon => hstar (Option.some.inj hcon)
        rw [hB i (le_refl i) hne, hsi]
    have hwin : l ∈ (w.drop (i - L)).take (min (i + L + 1) w.length - (i - L)) := by
      have hlt : i - (i - L) < min (i + L + 1) w.length - (i - L) := by
        have : i < min (i + L + 1) w.length := lt_min (by omega) hiW
        omega
      have hidx : ((w.drop (i - L)).take (min (i + L + 1) w.length - (i - L)))[i - (i - L)]? =
          some l := by
        rw [List.getElem?_take_of_lt hlt, List.getElem?_drop]
        have harith : i - L + (i - (i - L)) = i := by omega
        rw [harith, hwi]
      exact List.getElem?_mem hidx
    have hidxle : pyIndex l w ≤ i := pyIndex_le_of_getElem? hwi
    have hidxlt : pyIndex l w < w.length := pyIndex_lt_length (List.getElem?_mem hwi)
    simp only [gmcAux]
    rw [if_pos hwin]
    congr 1
    apply ih (i + 1)
    · have h1 : rest' = (s.drop i).drop 1 := by rw [← hdrop]; simp
      rw [h1, List.drop_drop, Nat.add_comm]
    · rw [List.length_set, hlen]
    · intro j
      by_cases hj : pyIndex l w = j
      · subst hj
        right
        exact List.getElem?_set_self hidxlt
      · rw [List.getElem?_set_ne hj]
        exact hA j
    · intro j hij hs'
      have hjne : pyIndex l w ≠ j := by omega
      rw [List.getElem?_set_ne hjne]
      exact hB j (by omega) hs'

lemma getMatchingCharacters_self (s : List Char) : getMatchingCharacters s s = s :=
  gmcAux_self_invariant s (min s.length s.length / 2) s 0 s (by simp) rfl
    (fun _ => Or.inl rfl) (fun _ _ _ => rfl)

lemma transpositions_self (x : List Char) : transpositions x x = 0 := by
  unfold transpositions
  have h : (x.zip x).filter (fun p => p.1 != p.2) = [] := by
    induction x with
    | nil => rfl
    | cons a xs ih => simp [List.filter, ih]
  rw [h]
  rfl

lemma scoreOf_self (x : List Char) (hx : x ≠ []) : scoreOf x x = 1 := by
  have hlen : x.length ≠ 0 := fun h => hx (List.length_eq_zero.mp h)
  have hq : (x.length : ℚ) ≠ 0 := by exact_mod_cast hlen
  unfold scoreOf
  rw [getMatchingCharacters_self, transpositions_self]
  rw [if_neg (by omega)]
  push_cast
  field_simp
  ring

lemma score_self (s : List Char) (hs : s ≠ []) : score s s = 1 := by
  unfold score
  rw [if_neg (lt_irrefl _)]
  apply scoreOf_self
  simpa [pyLower, List.map_eq_nil_iff] using hs

lemma get_prefix_self (s : List Char) (hs : s ≠ []) : get_prefix s s = s := by
  unfold get_prefix
  rw [if_neg (by simp [hs])]
  rw [if_pos (by simp [getDiffIndex])]

/-- C5: for every non-empty string `s`, `get_jaro_distance(s, s)` with
default parameters returns exactly `1.0`. -/
theorem get_jaro_distance_identity (s : List Char) (hs : s ≠ []) :
    get_jaro_distance (PyVal.str s) (PyVal.str s) true true (1 / 10) = Except.ok 1 := by
  have hs' : s.isEmpty = false := by simpa [List.isEmpty_iff] using hs
  have hbody : jaroBody s s true true (1 / 10) = 1 := by
    unfold jaroBody
    rw [score_self s hs]
    norm_num
    have hr : pyRound (100 : ℚ) = 100 := by norm_num [pyRound]
    rw [hr]
    norm_num
  unfold get_jaro_distance
  rw [if_neg (by simp [pyTruthy, hs'])]
  show Except.ok (jaroBody s s true true (1 / 10)) = Except.ok 1
  rw [hbody]

/-- Witness for C5 at a concrete input. -/
theorem get_jaro_distance_identity_witness :
    get_jaro_distance (PyVal.str ['a']) (PyVal.str ['a']) true true (1 / 10) =
      Except.ok 1 :=
  get_jaro_distance_identity ['a'] (by decide)

/-! ### Winkler adjustment versus the raw score (C6) -/

/-- C6 counterexample: with the default scaling, a nonzero raw Jaro
score and a nonzero shared prefix, the rounded Winkler-adjusted result
of `get_jaro_distance` can fall below the raw Jaro score.  For the
17-character pair below the raw score is `50/51 ≈ 0.98039`, while the
returned adjusted value is `0.98`. -/
theorem winkler_rounding_drops_below_jaro :
    score ('a' :: 'c' :: 'd' :: List.replicate 14 'b')
        ('a' :: 'd' :: 'c' :: List.replicate 14 'b') = 50 / 51 ∧
      ( get_prefix ('a' :: 'c' :: 'd' :: List.replicate 14 'b')
        ('a' :: 'd' :: 'c' :: List.replicate 14 'b')).length = 1 ∧
      get_jaro_distance (PyVal.str ('a' :: 'c' :: 'd' :: List.replicate 14 'b'))
        (PyVal.str ('a' :: 'd' :: 'c' :: List.replicate 14 'b')) true true (1 / 10) =
        Except.ok (98 / 100) ∧
      (98 : ℚ) / 100 < 50 / 51 := by
  refine ⟨?_, ?_, ?_, ?_⟩
  · with_unfolding_all rfl
  · with_unfolding_all rfl
  · with_unfolding_all rfl
  · norm_num

/-- C6 amended: the un-rounded Winkler-adjusted value
`jaro + 0.1 * cl * (1 - jaro)` is always at least the raw Jaro score
(the final rounding to two decimals can then push the returned result
below the raw score by less than `0.005`). -/
theorem winkler_adjustment_monotone (a b : List Char)
    (h1 : score a b ≠ 0) (h2 : ( get_prefix a b).length ≠ 0) :
    score a b ≤
      score a b +
        (1 / 10) * ((min ( get_prefix a b).length 4 : ℕ) : ℚ) * (1 - score a b) := by
  obtain ⟨h0, hle⟩ := score_bounds a b
  have hcl : (0 : ℚ) ≤ ((min ( get_prefix a b).length 4 : ℕ) : ℚ) := by positivity
  nlinarith

/-- Witness for the amended C6 at a concrete input. -/
theorem winkler_adjustment_monotone_witness :
    score ['a'] ['a'] ≤
      score ['a'] ['a'] +
        (1 / 10) * ((min ( get_prefix ['a'] ['a']).length 4 : ℕ) : ℚ) *
          (1 - score ['a'] ['a']) :=
  winkler_adjustment_monotone ['a'] ['a']
    (by rw [score_self ['a'] (by decide)]; norm_num)
    (by rw [get_prefix_self ['a'] (by decide)]; decide)

/-! ### The invalid-input error (C7) -/

/-- C7: restricted to arguments that are strings or `None` (the shapes
the claim speaks about), `get_jaro_distance` raises
`JaroDistanceException` exactly when one of the two arguments is the
empty string or `None`; two non-empty strings never raise it. -/
theorem invalid_input_error_iff (a b : PyVal)
    (ha : a = PyVal.none ∨ ∃ s, a = PyVal.str s)
    (hb : b = PyVal.none ∨ ∃ s, b = PyVal.str s)
    (w wa : Bool) (sc : ℚ) :
    get_jaro_distance a b w wa sc = Except.error PyError.jaroDistanceException ↔
      (a = PyVal.none ∨ a = PyVal.str [] ∨ b = PyVal.none ∨ b = PyVal.str []) := by
  rcases ha with rfl | ⟨s, rfl⟩
  · simp [get_jaro_distance, pyTruthy]
  · rcases hb with rfl | ⟨t, rfl⟩
    · simp [get_jaro_distance, pyTruthy]
    · by_cases hs : s = []
      · subst hs
        simp [get_jaro_distance, pyTruthy]
      · by_cases ht : t = []
        · subst ht
          simp [get_jaro_distance, pyTruthy]
        · have hs' : s.isEmpty = false := by simpa [List.isEmpty_iff] using hs
          have ht' : t.isEmpty = false := by simpa [List.isEmpty_iff] using ht
          simp [get_jaro_distance, pyTruthy, hs', ht', hs, ht]

/-- Witness for C7 at a concrete input. -/
theorem invalid_input_error_iff_witness :
    get_jaro_distance (PyVal.str []) (PyVal.str ['t', 'e', 's', 't']) true true (1 / 10) =
      Except.error PyError.jaroDistanceException :=
  (invalid_input_error_iff (PyVal.str []) (PyVal.str ['t', 'e', 's', 't'])
    (Or.inr ⟨[], rfl⟩) (Or.inr ⟨['t', 'e', 's', 't'], rfl⟩) true true (1 / 10)).mpr
    (Or.inr (Or.inl rfl))

/-! ### The batch entry point (C8, C10) -/

lemma mapExcept_ok (f : PyVal → Except PyError ℚ) :
    ∀ (cs : List PyVal) (rs : List ℚ), mapExcept f cs = Except.ok rs →
      rs.length = cs.length ∧
        ∀ i : ℕ, i < cs.length → Except.ok (rs.getD i 0) = f (cs.getD i PyVal.none) := by
  intro cs
  induction cs with
  | nil =>
    intro rs h
    simp only [mapExcept, Except.ok.injEq] at h
    subst h
    exact ⟨rfl, fun i hi => absurd hi (by simp)⟩
  | cons c cs' ih =>
    intro rs h
    simp only [mapExcept] at h
    cases hfc : f c with
    | error e => rw [hfc] at h; simp at h
    | ok q =>
      rw [hfc] at h
      cases hrec : mapExcept f cs' with
      | error e => rw [hrec] at h; simp at h
      | ok qs =>
        rw [hrec] at h
        simp only [Except.ok.injEq] at h
        subst h
        obtain ⟨hlen, helem⟩ := ih qs hrec
        refine ⟨by simp [hlen], fun i hi => ?_⟩
        cases i with
        | zero => simp [hfc]
        | succ n =>
          have hn : n < cs'.length := by simpa using hi
          simpa using helem n hn

lemma mapExcept_error (f : PyVal → Except PyError ℚ) :
    ∀ (cs : List PyVal) (e : PyError), mapExcept f cs = Except.error e →
      ∃ i : ℕ, i < cs.length ∧ f (cs.getD i PyVal.none) = Except.error e ∧
        ∀ j : ℕ, j < i → ∃ q, f (cs.getD j PyVal.none) = Except.ok q := by
  intro cs
  induction cs with
  | nil => intro e h; simp [mapExcept] at h
  | cons c cs' ih =>
    intro e h
    simp only [mapExcept] at h
    cases hfc : f c with
    | error e' =>
      rw [hfc] at h
      simp only [Except.error.injEq] at h
      subst h
      exact ⟨0, by simp, by simpa using hfc, fun j hj => absurd hj (by omega)⟩
    | ok q =>
      rw [hfc] at h
      cases hrec : mapExcept f cs' with
      | error e'' =>
        rw [hrec] at h
        simp only [Except.error.injEq] at h
        subst h
        obtain ⟨i, hi, hie, hjs⟩ := ih e'' hrec
        refine ⟨i + 1, by simpa using Nat.succ_lt_succ hi, by simpa using hie, fun j hj => ?_⟩
        cases j with
        | zero => exact ⟨q, by simpa using hfc⟩
        | succ m => simpa using hjs m (by omega)
      | ok qs => rw [hrec] at h; simp at h

/-- C8: on a `list` of candidates, a successful batch call returns one
result per candidate, in order, each equal to the pair function at that
candidate with the same options; a failing batch call fails at the first
invalid candidate (every earlier one succeeds); and a non-`list` second
argument is treated exactly as the one-element list holding it. -/
theorem get_jaro_distance_array_spec (first : PyVal) (w wa : Bool) (sc : ℚ)
    (cs : List PyVal) :
    (∀ rs, get_jaro_distance_array first (PyVal.list cs) w wa sc = Except.ok rs →
        rs.length = cs.length ∧
          ∀ i : ℕ, i < cs.length →
            Except.ok (rs.getD i 0) =
              get_jaro_distance first (cs.getD i PyVal.none) w wa sc) ∧
    (∀ e, get_jaro_distance_array first (PyVal.list cs) w wa sc = Except.error e →
        ∃ i : ℕ, i < cs.length ∧
          get_jaro_distance first (cs.getD i PyVal.none) w wa sc = Except.error e ∧
          ∀ j : ℕ, j < i →
            ∃ q, get_jaro_distance first (cs.getD j PyVal.none) w wa sc = Except.ok q) ∧
    (∀ v : PyVal, isList v = false →
        get_jaro_distance_array first v w wa sc =
          get_jaro_distance_array first (PyVal.list [v]) w wa sc) := by
  refine ⟨fun rs h => mapExcept_ok _ cs rs h, fun e h => mapExcept_error _ cs e h, ?_⟩
  intro v hv
  cases v with
  | list xs => simp [isList] at hv
  | str s => rfl
  | none => rfl
  | tuple ts => rfl

/-- Witness for C8 at a concrete input. -/
theorem get_jaro_distance_array_spec_witness :
    [(1 : ℚ)].length = [PyVal.str ['a']].length ∧
      ∀ i : ℕ, i < [PyVal.str ['a']].length →
        Except.ok ([(1 : ℚ)].getD i 0) =
          get_jaro_distance (PyVal.str ['a']) ([PyVal.str ['a']].getD i PyVal.none)
            true true (1 / 10) :=
  (get_jaro_distance_array_spec (PyVal.str ['a']) true true (1 / 10) [PyVal.str ['a']]).1
    [(1 : ℚ)] (by with_unfolding_all rfl)

/-- C10: only an exact `list` is iterated as a collection of candidates;
any other second argument — a tuple included — is wrapped whole as a
single candidate and handed to the pair function, whose single result
(or error) becomes the batch result. -/
theorem isinstance_list_check (first : PyVal) (w wa : Bool) (sc : ℚ) :
    (∀ xs : List PyVal,
        get_jaro_distance_array first (PyVal.list xs) w wa sc =
          mapExcept (fun c => get_jaro_distance first c w wa sc) xs) ∧
    (∀ v : PyVal, isList v = false →
        get_jaro_distance_array first v w wa sc =
          Except.map (fun q => [q]) (get_jaro_distance first v w wa sc)) ∧
    (∀ ts : List PyVal,
        get_jaro_distance_array first (PyVal.tuple ts) w wa sc =
          Except.map (fun q => [q]) (get_jaro_distance first (PyVal.tuple ts) w wa sc)) := by
  have hwrap : ∀ v : PyVal, isList v = false →
      get_jaro_distance_array first v w wa sc =
        Except.map (fun q => [q]) (get_jaro_distance first v w wa sc) := by
    intro v hv
    have harr : get_jaro_distance_array first v w wa sc =
        mapExcept (fun c => get_jaro_distance first c w wa sc) [v] := by
      cases v with
      | list xs => simp [isList] at hv
      | str s => rfl
      | none => rfl
      | tuple ts => rfl
    rw [harr]
    cases hq : get_jaro_distance first v w wa sc <;>
      simp [mapExcept, Except.map, hq]
  exact ⟨fun xs => rfl, hwrap, fun ts => hwrap (PyVal.tuple ts) rfl⟩

/-- Witness for C10 at a concrete input. -/
theorem isinstance_list_check_witness :
    get_jaro_distance_array (PyVal.str ['a']) (PyVal.tuple [PyVal.str ['b']])
        true true (1 / 10) =
      Except.map (fun q => [q])
        (get_jaro_distance (PyVal.str ['a']) (PyVal.tuple [PyVal.str ['b']])
          true true (1 / 10)) :=
  (isinstance_list_check (PyVal.str ['a']) true true (1 / 10)).2.1
    (PyVal.tuple [PyVal.str ['b']]) rfl

/-! ### Case sensitivity of the prefix computation (C9) -/

lemma diffLoop_eq_specPrefixLen : ∀ a b : List Char, diffLoop a b = specPrefixLen a b := by
  intro a
  induction a with
  | nil => intro b; cases b <;> rfl
  | cons x xs ih =>
    intro b
    cases b with
    | nil => rfl
    | cons y ys => by_cases h : x = y <;> simp [diffLoop, specPrefixLen, h, ih]

lemma specPrefixLen_self : ∀ a : List Char, specPrefixLen a a = a.length := by
  intro a
  induction a with
  | nil => rfl
  | cons x xs ih => simp [specPrefixLen, ih]

lemma specPrefixLen_le_left : ∀ a b : List Char, specPrefixLen a b ≤ a.length := by
  intro a
  induction a with
  | nil => intro b; cases b <;> simp [specPrefixLen]
  | cons x xs ih =>
    intro b
    cases b with
    | nil => simp [specPrefixLen]
    | cons y ys =>
      by_cases h : x = y <;> simp [specPrefixLen, h]
      exact ih ys

lemma get_prefix_length (a b : List Char) :
    ( get_prefix a b).length = specPrefixLen a b := by
  unfold get_prefix
  by_cases hab : a = [] ∨ b = []
  · rw [if_pos hab]
    rcases hab with rfl | rfl
    · cases b <;> rfl
    · cases a <;> rfl
  · rw [if_neg hab]
    push_neg at hab
    by_cases heq : a = b
    · subst heq
      rw [if_pos (by simp [getDiffIndex])]
      exact (specPrefixLen_self a).symm
    · have hdi : getDiffIndex a b = (diffLoop a b : ℤ) := by
        unfold getDiffIndex
        rw [if_neg heq, if_neg (by push_neg; exact hab)]
      rw [hdi]
      have h1 : ¬((diffLoop a b : ℤ) = -1) := by omega
      rw [if_neg h1]
      by_cases h0 : (diffLoop a b : ℤ) = 0
      · rw [if_pos h0]
        have hz : diffLoop a b = 0 := by exact_mod_cast h0
        simp only [List.length_nil]
        rw [← diffLoop_eq_specPrefixLen, hz]
      · rw [if_neg h0]
        rw [List.length_take, Int.toNat_natCast]
        rw [diffLoop_eq_specPrefixLen]
        exact Nat.min_eq_left (specPrefixLen_le_left a b)

lemma score_eq_scoreCore (a b : List Char) :
    score a b = scoreCore (pyLower a) (pyLower b) := by
  unfold score scoreCore
  simp [pyLower, List.length_map]

/-- C9: the common-prefix length feeding the Winkler adjustment is the
case-sensitive common prefix of the original, un-lowercased inputs
(first differing character or shorter length, whole string for equal
inputs), capped at 4, while the raw Jaro score is the normalized-input
scorer applied to the lowercased copies — so lowercasing happens only
inside the raw-score computation. -/
theorem prefix_case_sensitivity (a b : List Char) (sc : ℚ) :
    ( get_prefix a b).length = specPrefixLen a b ∧
      score a b = scoreCore (pyLower a) (pyLower b) ∧
      (a ≠ [] → b ≠ [] →
        get_jaro_distance (PyVal.str a) (PyVal.str b) true true sc =
          Except.ok ((pyRound ((scoreCore (pyLower a) (pyLower b) +
            sc * ((min (specPrefixLen a b) 4 : ℕ) : ℚ) *
            (1 - scoreCore (pyLower a) (pyLower b))) * 100) : ℚ) / 100)) := by
  refine ⟨get_prefix_length a b, score_eq_scoreCore a b, fun ha hb => ?_⟩
  have ha' : a.isEmpty = false := by simpa [List.isEmpty_iff] using ha
  have hb' : b.isEmpty = false := by simpa [List.isEmpty_iff] using hb
  unfold get_jaro_distance
  rw [if_neg (by simp [pyTruthy, ha', hb'])]
  show Except.ok (jaroBody a b true true sc) = _
  congr 1
  unfold jaroBody
  simp only [Bool.and_self, if_true]
  rw [score_eq_scoreCore, get_prefix_length]

/-- Witness for C9 at a concrete input. -/
theorem prefix_case_sensitivity_witness :
    get_jaro_distance (PyVal.str ['A', 'b']) (PyVal.str ['a', 'b']) true true (1 / 10) =
      Except.ok ((pyRound ((scoreCore (pyLower ['A', 'b']) (pyLower ['a', 'b']) +
        (1 / 10) * ((min (specPrefixLen ['A', 'b'] ['a', 'b']) 4 : ℕ) : ℚ) *
        (1 - scoreCore (pyLower ['A', 'b']) (pyLower ['a', 'b']))) * 100) : ℚ) / 100) :=
  (prefix_case_sensitivity ['A', 'b'] ['a', 'b'] (1 / 10)).2.2 (by decide) (by decide)
